import Mathlib

/-!
Verification of the export pipeline of the `bfv-api` repository
(`src/index.ts`).  The development models the pure transformation core:

* `parseDateTime` — parsing German `DD.MM.YYYY` / `HH:mm` strings into a
  numeric 5-tuple, with every missing or non-numeric component defaulting
  to `0` (JS `Number(x) || 0`);
* `getMonthKeyAndLabel` — computing the month-group key/label used by the
  hierarchical Jira CSV export, with the `"ohne-datum"` fallback bucket;
* the grouping, sorting and work-item-id assignment performed by
  `exportToJiraCSV`;
* the record filter of `exportToICS` and the row sets of `exportToCSV` /
  `exportToXLSX`.

JavaScript primitives are modelled as follows:

* `String.prototype.split` with a one-character separator is `jsSplit`
  (verbatim JS semantics: `"".split(".") = [""]`, empty segments kept);
* the `Number` string coercion is `jsNum`, implementing the
  `StringToNumber` grammar: JS whitespace is trimmed, the empty remainder
  is `0`, and signed decimal literals (with optional fraction and
  exponent), `Infinity`, and unsigned `0b`/`0o`/`0x` literals are
  accepted; everything else is `NaN`, modelled as `none`.  Values live in
  `WithBot (WithTop ℚ)` (`-Infinity`, exact rationals, `+Infinity`); the
  final IEEE-754 rounding JS applies to the exact mathematical value is
  not modelled (see `JsNum`);
* `localeCompare` is codepoint comparison (`cmpChars`); on the
  ASCII digit/hyphen month keys this program compares, the German locale
  collation used by JS agrees with codepoint order;
* `Array.prototype.sort` (stable since ES2019) is `List.mergeSort`;
* a JS `Map` with string keys is an association list in insertion order.
-/

/-- Model of JS `String.prototype.split` with a one-character separator,
on the character list. Empty segments are kept, and splitting the empty
list yields one empty segment, as in JS. -/
def splitChars (sep : Char) : List Char → List (List Char)
  | [] => [[]]
  | c :: cs =>
    let r := splitChars sep cs
    if c = sep then [] :: r
    else
      match r with
      | [] => [[c]]
      | t :: ts => (c :: t) :: ts

/-- Model of JS `s.split(sep)` for a one-character separator. -/
def jsSplit (s : String) (sep : Char) : List String :=
  (splitChars sep s.data).map String.mk

/-- Value of a decimal digit string (most significant first). -/
def digitsToNat (l : List Char) : Nat :=
  l.foldl (fun a c => a * 10 + (c.toNat - 48)) 0

/-- Numeric value of one `0-9a-fA-F` digit. -/
def hexDigitVal (c : Char) : Nat :=
  if c.isDigit then c.toNat - 48
  else if 'a' ≤ c ∧ c ≤ 'f' then c.toNat - 87
  else if 'A' ≤ c ∧ c ≤ 'F' then c.toNat - 55
  else 0

/-- Value of a digit string in base `b` (most significant first). -/
def digitsToNatBase (b : Nat) (l : List Char) : Nat :=
  l.foldl (fun a c => a * b + hexDigitVal c) 0

def isHexDigit (c : Char) : Bool :=
  c.isDigit || decide ('a' ≤ c ∧ c ≤ 'f') || decide ('A' ≤ c ∧ c ≤ 'F')

def isOctDigit (c : Char) : Bool := decide ('0' ≤ c ∧ c ≤ '7')

def isBinDigit (c : Char) : Bool := c == '0' || c == '1'

/-- The JS whitespace characters trimmed by the `Number` string coercion
(`StrWhiteSpaceChar`: tab, line terminators, space, NBSP, ZWNBSP and the
Unicode space separators). -/
def jsWsChars : List Char :=
  ['\t', '\n', '\x0b', '\x0c', '\r', ' ', '\u00A0', '\u1680', '\u2000',
   '\u2001', '\u2002', '\u2003', '\u2004', '\u2005', '\u2006', '\u2007',
   '\u2008', '\u2009', '\u200A', '\u2028', '\u2029', '\u202F', '\u205F',
   '\u3000', '\uFEFF']

def isJsWs (c : Char) : Bool := jsWsChars.contains c

/-- Drop trailing JS whitespace. -/
def dropTrailWs : List Char → List Char
  | [] => []
  | c :: rest =>
    match dropTrailWs rest with
    | [] => if isJsWs c then [] else [c]
    | r => c :: r

/-- The JS whitespace trimming applied by the `Number` coercion. -/
def trimJsWs (l : List Char) : List Char := dropTrailWs (l.dropWhile isJsWs)

/-- The value space of the JS `Number` coercion minus `NaN` (`NaN` is
`none` one level up): `-Infinity` (`⊥`), finite values, `+Infinity`.
Finite values are the exact mathematical values of the numeric
literals; the final IEEE-754 rounding JS applies is not modelled — it
is the identity on every token of the `DD.MM.YYYY`/`HH:mm` shapes this
program's data carries, and no theorem below inspects a value on which
the two differ.  In particular a finite literal too large for a double
stays finite here instead of overflowing to `Infinity`. -/
abbrev JsNum : Type := WithBot (WithTop ℚ)

/-- A finite JS number. -/
def jsn (q : ℚ) : JsNum := ((q : WithTop ℚ) : JsNum)

/-- `Infinity`. -/
def jsInf : JsNum := ((⊤ : WithTop ℚ) : JsNum)

/-- The exponent digits of an exponent part (after `e`/`E` and the
optional sign): scale the mantissa by `10 ^ ± digits`; anything but a
nonempty digit string invalidates the whole literal. -/
def parseExpDigits (neg : Bool) (l : List Char) (mant : ℚ) : Option ℚ :=
  if l ≠ [] ∧ l.all (·.isDigit) then
    some (if neg then mant / (10 : ℚ) ^ digitsToNat l else mant * (10 : ℚ) ^ digitsToNat l)
  else none

/-- What may follow the digits of a decimal literal: nothing, or an
exponent part `(e|E) (+|-)? digits`. -/
def parseDecTail (l : List Char) (mant : ℚ) : Option ℚ :=
  match l with
  | [] => some mant
  | c :: r =>
    if c = 'e' ∨ c = 'E' then
      match r with
      | [] => none
      | c2 :: r2 =>
        if c2 = '+' then parseExpDigits false r2 mant
        else if c2 = '-' then parseExpDigits true r2 mant
        else parseExpDigits false (c2 :: r2) mant
    else none

/-- `StrUnsignedDecimalLiteral` without the `Infinity` alternative:
`digits [. digits] [exp]` or `. digits [exp]`, with its exact rational
value; at least one digit is required and nothing may trail. -/
def parseDec (l : List Char) : Option ℚ :=
  let ip := l.takeWhile (·.isDigit)
  let r1 := l.dropWhile (·.isDigit)
  match r1 with
  | [] => if ip = [] then none else some ((digitsToNat ip : Nat) : ℚ)
  | c :: r =>
    if c = '.' then
      let fd := r.takeWhile (·.isDigit)
      let r2 := r.dropWhile (·.isDigit)
      if ip = [] ∧ fd = [] then none
      else
        parseDecTail r2
          (((digitsToNat ip : Nat) : ℚ) + ((digitsToNat fd : Nat) : ℚ) / (10 : ℚ) ^ fd.length)
    else if ip = [] then none
    else parseDecTail (c :: r) ((digitsToNat ip : Nat) : ℚ)

/-- A binary/octal/hex integer body: nonempty, all digits of the radix. -/
def parseRadix (isDig : Char → Bool) (b : Nat) (l : List Char) : Option ℚ :=
  if l ≠ [] ∧ l.all isDig then some ((digitsToNatBase b l : Nat) : ℚ) else none

/-- A signed numeric body (after `+`/`-`): `Infinity` or an unsigned
decimal literal; hex/octal/binary literals take no sign in JS. -/
def jsSigned (l : List Char) (neg : Bool) : Option JsNum :=
  if l = "Infinity".data then some (if neg then (⊥ : JsNum) else jsInf)
  else (parseDec l).map (fun q => jsn (if neg then -q else q))

/-- `StrNumericLiteral`, split on its first character `c` (`rest` is the
remainder): a signed decimal literal or `Infinity`, or an unsigned
binary/octal/hex literal (`0b`/`0o`/`0x`), or an unsigned decimal
literal. -/
def jsNumCore (c : Char) (rest : List Char) : Option JsNum :=
  if c = '+' then jsSigned rest false
  else if c = '-' then jsSigned rest true
  else if c :: rest = "Infinity".data then some jsInf
  else if c = '0' then
    match rest with
    | [] => (parseDec (c :: rest)).map jsn
    | c2 :: r =>
      if c2 = 'x' ∨ c2 = 'X' then (parseRadix isHexDigit 16 r).map jsn
      else if c2 = 'o' ∨ c2 = 'O' then (parseRadix isOctDigit 8 r).map jsn
      else if c2 = 'b' ∨ c2 = 'B' then (parseRadix isBinDigit 2 r).map jsn
      else (parseDec (c :: rest)).map jsn
  else (parseDec (c :: rest)).map jsn

/-- Model of the JS `Number` string coercion (`StringToNumber`): trim JS
whitespace; an empty remainder is `0`; otherwise parse one
`StrNumericLiteral`; anything else is `NaN`, i.e. `none`.  Values are
exact (see `JsNum`). -/
def jsNum (s : String) : Option JsNum :=
  match trimJsWs s.data with
  | [] => some (jsn 0)
  | c :: rest => jsNumCore c rest

/-- Model of `Number(x) || 0` where `x` is a possibly-`undefined` string
(array destructuring past the end of the split result gives
`undefined`, and `Number(undefined)` is `NaN`); `|| 0` replaces the
falsy values `NaN`, `0` and `-0` by `0`. -/
def jsNumOr0 (t : Option String) : JsNum :=
  match t with
  | none => jsn 0
  | some s =>
    match jsNum s with
    | none => jsn 0
    | some v => if v = jsn 0 then jsn 0 else v

/-- Model of JS `s.padStart(n, c)` for a one-character pad string. -/
def padStart (s : String) (n : Nat) (c : Char) : String :=
  String.mk (List.replicate (n - s.length) c) ++ s

/-- The normalized export row (`ExportMatch` in `src/index.ts`). -/
structure ExportMatch where
  mannschaft : String
  wettbewerb : String
  wettbewerbstyp : String
  datum : String
  uhrzeit : String
  heim : String
  gast : String
  ergebnis : String
  vorabVeroeffentlicht : String
deriving DecidableEq

/-- `parseDateTime` from `src/index.ts`: splits `date` on `'.'` and
`time` on `':'` and returns `[year, month, day, hour, minute]`, every
component going through `Number(tok) || 0`. -/
def parseDateTime (date time : String) : JsNum × JsNum × JsNum × JsNum × JsNum :=
  let dparts := jsSplit date '.'
  let tparts := jsSplit time ':'
  let day := jsNumOr0 dparts[0]?
  let month := jsNumOr0 dparts[1]?
  let year := jsNumOr0 dparts[2]?
  let hour := jsNumOr0 tparts[0]?
  let minute := jsNumOr0 tparts[1]?
  (year, month, day, hour, minute)

/-- The result type of `getMonthKeyAndLabel`. -/
structure KeyLabel where
  key : String
  label : String
deriving DecidableEq

/-- `MONTH_NAMES` from `exportToJiraCSV`. -/
def monthNames : List String :=
  ["Januar", "Februar", "März", "April", "Mai", "Juni",
   "Juli", "August", "September", "Oktober", "November", "Dezember"]

/-- `MONTH_NAMES[month - 1]` under JS array indexing: an integral index
into the array returns the month name, any other index is `undefined`,
which the template literal renders as `"undefined"`. -/
def monthNameAt (month : JsNum) : String :=
  match month with
  | some (some q) =>
    if q.den = 1 ∧ 1 ≤ q.num then (monthNames[(q.num - 1).toNat]?).getD "undefined"
    else "undefined"
  | _ => "undefined"

/-- Rendering of a JS number into a template literal.  Integral finite
values — the only values any theorem below inspects, and the only ones
the program's documented date data can produce — render exactly as in
JS; for non-integral values the shortest-round-trip decimal rendering
of the underlying double is not modelled and an exact fraction rendering
stands in. -/
def jsNumToString (v : JsNum) : String :=
  match v with
  | none => "-Infinity"
  | some none => "Infinity"
  | some (some q) =>
    if q.den = 1 then toString q.num
    else toString q.num ++ "/" ++ toString q.den

/-- `getMonthKeyAndLabel` from `exportToJiraCSV` in `src/index.ts`.
Empty date, token count other than three, falsy (`0`/`NaN`) or
out-of-range month, or falsy year fall back to the `"ohne-datum"`
bucket; otherwise the key is `` `${yearStr}-${monthStr.padStart(2, "0")}` ``. -/
def getMonthKeyAndLabel (datum : String) : KeyLabel :=
  if datum = "" then ⟨"ohne-datum", "Ohne Datum"⟩
  else
    match jsSplit datum '.' with
    | [_day, monthStr, yearStr] =>
      match jsNum monthStr, jsNum yearStr with
      | some month, some year =>
        if month < jsn 1 ∨ jsn 12 < month ∨ year = jsn 0 then ⟨"ohne-datum", "Ohne Datum"⟩
        else
          ⟨yearStr ++ "-" ++ padStart monthStr 2 '0',
           monthNameAt month ++ " " ++ jsNumToString year⟩
      | _, _ => ⟨"ohne-datum", "Ohne Datum"⟩
    | _ => ⟨"ohne-datum", "Ohne Datum"⟩

/-- `formatDueDate` from `exportToJiraCSV` in `src/index.ts`. -/
def formatDueDate (datum : String) : String :=
  if datum = "" then ""
  else
    match jsSplit datum '.' with
    | [dayStr, monthStr, yearStr] =>
      if dayStr = "" ∨ monthStr = "" ∨ yearStr = "" then ""
      else yearStr ++ "-" ++ padStart monthStr 2 '0' ++ "-" ++ padStart dayStr 2 '0'
    | _ => ""

/-- One entry of the `groups` map of `exportToJiraCSV`: a month key with
its German label and the records collected under it, in insertion
order. -/
structure MonthGroup where
  key : String
  label : String
  records : List ExportMatch
deriving DecidableEq

/-- One step of the grouping loop of `exportToJiraCSV`: append `m` to
the (first, hence unique) group with key `kl.key`, or add a new group at
the end, exactly as a JS `Map` keeps insertion order. -/
def addMatch : List MonthGroup → KeyLabel → ExportMatch → List MonthGroup
  | [], kl, m => [⟨kl.key, kl.label, [m]⟩]
  | g :: gs, kl, m =>
    if g.key = kl.key then ⟨g.key, g.label, g.records ++ [m]⟩ :: gs
    else g :: addMatch gs kl m

/-- The grouping loop of `exportToJiraCSV` (the `groups` map as a list
in insertion order). -/
def buildGroups (ms : List ExportMatch) : List MonthGroup :=
  ms.foldl (fun gs m => addMatch gs (getMonthKeyAndLabel m.datum) m) []

/-- The month key a record is routed to. -/
def keyOf (m : ExportMatch) : String := (getMonthKeyAndLabel m.datum).key

/-- The records stored under key `k` (the `groups.get(k)` view). -/
def entryMatches (k : String) (gs : List MonthGroup) : List ExportMatch :=
  match gs.find? (fun g => g.key == k) with
  | some g => g.records
  | none => []

/-- Codepoint comparison of character lists, the model of
`localeCompare` on this program's ASCII digit/hyphen month keys. -/
def cmpChars : List Char → List Char → Int
  | [], [] => 0
  | [], _ :: _ => -1
  | _ :: _, [] => 1
  | a :: as, b :: bs =>
    if a < b then -1
    else if b < a then 1
    else cmpChars as bs

/-- Model of `keyA.localeCompare(keyB)` (see header). -/
def localeCompare (a b : String) : Int := cmpChars a.data b.data

/-- The month-entry comparator of `exportToJiraCSV`: `"ohne-datum"`
sorts after everything, otherwise `localeCompare`. -/
def compareKeys (a b : String) : Int :=
  if a = "ohne-datum" ∧ b = "ohne-datum" then 0
  else if a = "ohne-datum" then 1
  else if b = "ohne-datum" then -1
  else localeCompare a b

/-- The strict "key `a` sorts before key `b`" order on month keys. -/
def keyLt (a b : String) : Prop := localeCompare a b < 0

/-- The month-entry comparator as a boolean `le`, for the stable sort. -/
def monthLe (g h : MonthGroup) : Bool := decide (compareKeys g.key h.key ≤ 0)

/-- The sign of the JS comparator value `a - b`: the difference of two
distinct extended-real numbers is negative exactly when `a < b` (the
program only ever consumes the sign of the comparator value, and the
indeterminate `∞ - ∞` cannot arise because each subtraction sits in a
branch taken only for distinct values). -/
def cmpNum (a b : JsNum) : Int := if a < b then -1 else if b < a then 1 else 0

/-- The comparator body of `compareMatchesByDateTime`, on the two
destructured `[ya, ma, da, ha, mina]` / `[yb, mb, db, hb, minb]` tuples:
the first differing component decides, as the sign of the JS comparator
result `component_a - component_b`. -/
def dtcmp : JsNum × JsNum × JsNum × JsNum × JsNum →
    JsNum × JsNum × JsNum × JsNum × JsNum → Int
  | (ya, ma, da, ha, mina), (yb, mb, db, hb, minb) =>
    if ya ≠ yb then cmpNum ya yb
    else if ma ≠ mb then cmpNum ma mb
    else if da ≠ db then cmpNum da db
    else if ha ≠ hb then cmpNum ha hb
    else cmpNum mina minb

/-- `compareMatchesByDateTime` from `exportToJiraCSV` in `src/index.ts`:
lexicographic numeric comparison of the parsed (year, month, day, hour,
minute) tuples, as a JS comparator result. -/
def compareMatchesByDateTime (a b : ExportMatch) : Int :=
  dtcmp (parseDateTime a.datum a.uhrzeit) (parseDateTime b.datum b.uhrzeit)

/-- `compareMatchesByDateTime` as a boolean `le`, for the stable sort. -/
def dtLe (a b : ExportMatch) : Bool := decide (compareMatchesByDateTime a b ≤ 0)

/-- The parsed date-time tuple of a record. -/
def dtTuple (m : ExportMatch) : JsNum × JsNum × JsNum × JsNum × JsNum :=
  parseDateTime m.datum m.uhrzeit

/-- One lexicographic layer: strictly smaller in the first component,
or equal there and `leB`-below in the rest. -/
def lex2 {β : Type} (leB : β → β → Prop) (p q : JsNum × β) : Prop :=
  p.1 < q.1 ∨ (p.1 = q.1 ∧ leB p.2 q.2)

/-- Lexicographic `≤` on parsed date-time tuples: `lexLe (y1, mo1, d1,
h1, mi1) (y2, mo2, d2, h2, mi2)` unfolds to `y1 < y2 ∨ (y1 = y2 ∧ (mo1
< mo2 ∨ (mo1 = mo2 ∧ …)))`, ending in `mi1 ≤ mi2`. -/
def lexLe : JsNum × JsNum × JsNum × JsNum × JsNum →
    JsNum × JsNum × JsNum × JsNum × JsNum → Prop :=
  lex2 (lex2 (lex2 (lex2 (· ≤ ·))))

/-- One row of the hierarchical Jira CSV (`jiraRows` element in
`src/index.ts`); `parent = none` is the empty `Parent` cell. -/
structure JiraRow where
  summary : String
  description : String
  dueDate : String
  issueType : String
  workItemId : Nat
  parent : Option Nat
deriving DecidableEq

/-- The `fields` list of the Jira CSV parser configuration. -/
def jiraCsvFields : List String :=
  ["Summary", "Description", "Due Date", "Issue Type", "Work item ID", "Parent"]

/-- The cells of one Jira CSV row, in `jiraCsvFields` order. -/
def jiraRowCells (r : JiraRow) : List String :=
  [r.summary, r.description, r.dueDate, r.issueType, toString r.workItemId,
   match r.parent with | none => "" | some p => toString p]

/-- A parent (`Issue Type "Task"`) row of the Jira export. -/
def mkParentRow (key label : String) (wid : Nat) : JiraRow :=
  { summary := if key = "ohne-datum" then "Spiele ohne Datum" else "Spiele Monat " ++ label
    description := ""
    dueDate := ""
    issueType := "Task"
    workItemId := wid
    parent := none }

/-- A child (`Issue Type "Sub-task"`) row of the Jira export. -/
def mkChildRow (m : ExportMatch) (wid pid : Nat) : JiraRow :=
  { summary := "Spiel: " ++ m.heim ++ " vs " ++ m.gast
    description := "Wettbewerb: " ++ m.wettbewerb ++ "\nTyp: " ++ m.wettbewerbstyp
        ++ "\nErgebnis: " ++ m.ergebnis
    dueDate := formatDueDate m.datum
    issueType := "Sub-task"
    workItemId := wid
    parent := some pid }

/-- The parent-row loop of `exportToJiraCSV`: starting from counter
`nid`, emit one `Task` row per month entry (`id = nextId++`), record the
id in `monthIdByKey`, and return the rows, the map, and the final
counter value. -/
def mkParentRows : Nat → List MonthGroup → List JiraRow × List (String × Nat) × Nat
  | nid, [] => ([], [], nid)
  | nid, g :: gs =>
    let rest := mkParentRows (nid + 1) gs
    (mkParentRow g.key g.label nid :: rest.1, (g.key, nid) :: rest.2.1, rest.2.2)

/-- The inner child loop: one `Sub-task` row per record, ids counting up
from `nid`, all pointing at parent id `pid`. -/
def childRowsOf (pid : Nat) : Nat → List ExportMatch → List JiraRow
  | _, [] => []
  | nid, m :: ms => mkChildRow m nid pid :: childRowsOf pid (nid + 1) ms

/-- The child-row loop of `exportToJiraCSV`: per month entry, look up
the parent id (skipping, as the code does, if it is missing or falsy),
stably sort the entry's records by `compareMatchesByDateTime`, and emit
their rows, the id counter running on across entries. -/
def mkChildRows (mp : List (String × Nat)) : Nat → List MonthGroup → List JiraRow
  | _, [] => []
  | nid, g :: gs =>
    match mp.lookup g.key with
    | none => mkChildRows mp nid gs
    | some pid =>
      if pid = 0 then mkChildRows mp nid gs
      else
        let sm := g.records.mergeSort dtLe
        childRowsOf pid nid sm ++ mkChildRows mp (nid + sm.length) gs

/-- `exportToJiraCSV` from `src/index.ts`, as the list of emitted rows
(for empty input the code writes a header-only CSV, i.e. no rows):
group by month key, sort the entries with the `"ohne-datum"`-last
comparator (JS `sort` is stable), then assign work item ids from a
single counter starting at `1`, parent rows first. -/
def exportToJiraCSV (ms : List ExportMatch) : List JiraRow :=
  if ms.isEmpty then []
  else
    let entries := (buildGroups ms).mergeSort monthLe
    let p := mkParentRows 1 entries
    p.1 ++ mkChildRows p.2.1 p.2.2 entries

/-- Closed form of the parent-row loop: group `i` of `gs` yields a `Task`
row with id `nid + i`. -/
def parentSec : Nat → List MonthGroup → List JiraRow
  | _, [] => []
  | nid, g :: gs => mkParentRow g.key g.label nid :: parentSec (nid + 1) gs

/-- Closed form of `monthIdByKey`: key of group `i` maps to `nid + i`. -/
def mapSec : Nat → List MonthGroup → List (String × Nat)
  | _, [] => []
  | nid, g :: gs => (g.key, nid) :: mapSec (nid + 1) gs

/-- Closed form of the child-row loop when every lookup succeeds: group
`i` contributes the rows of its stably sorted records, with parent id
`pid + i` and child ids running on from `nid`. -/
def childSec : Nat → Nat → List MonthGroup → List JiraRow
  | _, _, [] => []
  | pid, nid, g :: gs =>
    let sm := g.records.mergeSort dtLe
    childRowsOf pid nid sm ++ childSec (pid + 1) (nid + sm.length) gs

/-- One calendar event (`EventAttributes` as built in `exportToICS`). -/
structure IcsEvent where
  title : String
  start : JsNum × JsNum × JsNum × JsNum × JsNum
  durationHours : Nat
  description : String
deriving DecidableEq

/-- The event built for one record in `exportToICS`. -/
def mkIcsEvent (m : ExportMatch) : IcsEvent :=
  { title := m.heim ++ " vs " ++ m.gast
    start := parseDateTime m.datum m.uhrzeit
    durationHours := 2
    description := "Wettbewerb: " ++ m.wettbewerb ++ "\nTyp: " ++ m.wettbewerbstyp
        ++ "\nErgebnis: " ++ m.ergebnis }

/-- `exportToICS` from `src/index.ts`: one event per record whose date
and time strings are both truthy (non-empty); all others are skipped. -/
def exportToICS (ms : List ExportMatch) : List IcsEvent :=
  (ms.filter (fun m => m.datum != "" && m.uhrzeit != "")).map mkIcsEvent

/-- The nine cells of one plain CSV row (`json2csv` with `header: true`
iterates the nine `ExportMatch` fields); the XLSX worksheet uses the
same nine keys in the same order. -/
def csvCells (m : ExportMatch) : List String :=
  [m.mannschaft, m.wettbewerb, m.wettbewerbstyp, m.datum, m.uhrzeit,
   m.heim, m.gast, m.ergebnis, m.vorabVeroeffentlicht]

/-- `exportToCSV` from `src/index.ts`, as the list of data rows: one row
per record, unconditionally. -/
def exportToCSV (ms : List ExportMatch) : List (List String) := ms.map csvCells

/-- `exportToXLSX` from `src/index.ts`, as the list of data rows added by
`worksheet.addRow`: one row per record, unconditionally. -/
def exportToXLSX (ms : List ExportMatch) : List (List String) := ms.map csvCells

/-- A `split` token that JS turns into `0` in `parseDateTime`: missing
(`undefined`), empty, or not a valid number (`NaN`). -/
def tokenBad (o : Option String) : Prop :=
  o = none ∨ o = some "" ∨ ∃ s, o = some s ∧ jsNum s = none

/-! ### Order facts about the month-key comparator -/

theorem cmpChars_nonpos_trans :
    ∀ a b c : List Char, cmpChars a b ≤ 0 → cmpChars b c ≤ 0 → cmpChars a c ≤ 0
  | [], _, [], _, _ => by simp [cmpChars]
  | [], _, _ :: _, _, _ => by simp [cmpChars]
  | _ :: _, [], _, h1, _ => by simp [cmpChars] at h1
  | _ :: _, _ :: _, [], _, h2 => by simp [cmpChars] at h2
  | x :: xs, y :: ys, z :: zs, h1, h2 => by
    simp only [cmpChars] at h1 h2 ⊢
    rcases lt_trichotomy x y with hxy | hxy | hxy
    · rcases lt_trichotomy y z with hyz | hyz | hyz
      · rw [if_pos (lt_trans hxy hyz)]; omega
      · rw [if_pos (hyz ▸ hxy)]; omega
      · rw [if_neg (lt_asymm hyz), if_pos hyz] at h2; omega
    · subst hxy
      rcases lt_trichotomy x z with hxz | hxz | hxz
      · rw [if_pos hxz]; omega
      · subst hxz
        rw [if_neg (lt_irrefl x), if_neg (lt_irrefl x)] at h1 h2 ⊢
        exact cmpChars_nonpos_trans xs ys zs h1 h2
      · rw [if_neg (lt_asymm hxz), if_pos hxz] at h2; omega
    · rw [if_neg (lt_asymm hxy), if_pos hxy] at h1; omega

theorem cmpChars_nonpos_total :
    ∀ a b : List Char, cmpChars a b ≤ 0 ∨ cmpChars b a ≤ 0
  | [], [] => by simp [cmpChars]
  | [], _ :: _ => by simp [cmpChars]
  | _ :: _, [] => by simp [cmpChars]
  | x :: xs, y :: ys => by
    simp only [cmpChars]
    rcases lt_trichotomy x y with hxy | hxy | hxy
    · left; rw [if_pos hxy]; omega
    · subst hxy
      rw [if_neg (lt_irrefl x), if_neg (lt_irrefl x), if_neg (lt_irrefl x),
        if_neg (lt_irrefl x)]
      exact cmpChars_nonpos_total xs ys
    · right; rw [if_pos hxy]; omega

theorem cmpChars_eq_zero_iff : ∀ a b : List Char, cmpChars a b = 0 ↔ a = b
  | [], [] => by simp [cmpChars]
  | [], _ :: _ => by simp [cmpChars]
  | _ :: _, [] => by simp [cmpChars]
  | x :: xs, y :: ys => by
    simp only [cmpChars, List.cons.injEq]
    rcases lt_trichotomy x y with hxy | hxy | hxy
    · rw [if_pos hxy]
      constructor
      · intro h; omega
      · rintro ⟨rfl, -⟩; exact absurd hxy (lt_irrefl x)
    · subst hxy
      rw [if_neg (lt_irrefl x), if_neg (lt_irrefl x)]
      simp [cmpChars_eq_zero_iff xs ys]
    · rw [if_neg (lt_asymm hxy), if_pos hxy]
      constructor
      · intro h; omega
      · rintro ⟨rfl, -⟩; exact absurd hxy (lt_irrefl x)

theorem localeCompare_nonpos_trans {a b c : String}
    (h1 : localeCompare a b ≤ 0) (h2 : localeCompare b c ≤ 0) :
    localeCompare a c ≤ 0 :=
  cmpChars_nonpos_trans a.data b.data c.data h1 h2

theorem localeCompare_nonpos_total (a b : String) :
    localeCompare a b ≤ 0 ∨ localeCompare b a ≤ 0 :=
  cmpChars_nonpos_total a.data b.data

theorem localeCompare_eq_zero_iff {a b : String} : localeCompare a b = 0 ↔ a = b := by
  unfold localeCompare
  rw [cmpChars_eq_zero_iff]
  exact ⟨fun h => String.ext h, fun h => h ▸ rfl⟩

theorem compareKeys_le_trans {a b c : String}
    (h1 : compareKeys a b ≤ 0) (h2 : compareKeys b c ≤ 0) : compareKeys a c ≤ 0 := by
  unfold compareKeys at h1 h2 ⊢
  split_ifs at h1 h2 ⊢ <;>
    first
      | omega
      | exact localeCompare_nonpos_trans h1 h2
      | simp_all

theorem compareKeys_le_total (a b : String) :
    compareKeys a b ≤ 0 ∨ compareKeys b a ≤ 0 := by
  unfold compareKeys
  split_ifs <;>
    first
      | omega
      | exact localeCompare_nonpos_total a b
      | simp_all

theorem monthLe_trans (a b c : MonthGroup) (h1 : monthLe a b) (h2 : monthLe b c) :
    monthLe a c := by
  simp only [monthLe, decide_eq_true_eq] at h1 h2 ⊢
  exact compareKeys_le_trans h1 h2

theorem monthLe_total (a b : MonthGroup) : monthLe a b || monthLe b a := by
  simp only [monthLe]
  rcases compareKeys_le_total a.key b.key with h | h <;> simp [h]

/-- A `compareKeys`-nonpositive pair with distinct keys: the left key is
dated, and either the right key is the undated bucket or the left key is
strictly smaller. -/
theorem compareKeys_strict {a b : String} (hle : compareKeys a b ≤ 0) (hne : a ≠ b) :
    a ≠ "ohne-datum" ∧ (b = "ohne-datum" ∨ keyLt a b) := by
  unfold compareKeys at hle
  split_ifs at hle with h1 h2 h3
  · exact absurd (h1.1.trans h1.2.symm) hne
  · omega
  · exact ⟨h2, Or.inl h3⟩
  · refine ⟨h2, Or.inr ?_⟩
    rcases lt_or_eq_of_le hle with h | h
    · exact h
    · exact absurd (localeCompare_eq_zero_iff.mp h) hne

/-! ### Order facts about the date-time comparator -/

theorem jsn_le_jsn {a b : ℚ} : jsn a ≤ jsn b ↔ a ≤ b := by
  unfold jsn
  rw [WithBot.coe_le_coe, WithTop.coe_le_coe]

theorem jsn_lt_jsn {a b : ℚ} : jsn a < jsn b ↔ a < b := by
  unfold jsn
  rw [WithBot.coe_lt_coe, WithTop.coe_lt_coe]

theorem jsn_inj {a b : ℚ} : jsn a = jsn b ↔ a = b := by
  unfold jsn
  rw [WithBot.coe_inj, WithTop.coe_inj]

theorem lex2_refl {β : Type} {leB : β → β → Prop} (h : ∀ b : β, leB b b) :
    ∀ p : JsNum × β, lex2 leB p p :=
  fun p => Or.inr ⟨rfl, h p.2⟩

theorem lex2_trans {β : Type} {leB : β → β → Prop}
    (h : ∀ a b c : β, leB a b → leB b c → leB a c) :
    ∀ p q r : JsNum × β, lex2 leB p q → lex2 leB q r → lex2 leB p r := by
  rintro p q r (h1 | ⟨e1, h1⟩) (h2 | ⟨e2, h2⟩)
  · exact Or.inl (lt_trans h1 h2)
  · exact Or.inl (e2 ▸ h1)
  · exact Or.inl (e1 ▸ h2)
  · exact Or.inr ⟨e1.trans e2, h _ _ _ h1 h2⟩

theorem lex2_total {β : Type} {leB : β → β → Prop}
    (h : ∀ a b : β, leB a b ∨ leB b a) :
    ∀ p q : JsNum × β, lex2 leB p q ∨ lex2 leB q p := by
  intro p q
  rcases lt_trichotomy p.1 q.1 with hlt | heq | hgt
  · exact Or.inl (Or.inl hlt)
  · rcases h p.2 q.2 with hb | hb
    · exact Or.inl (Or.inr ⟨heq, hb⟩)
    · exact Or.inr (Or.inr ⟨heq.symm, hb⟩)
  · exact Or.inr (Or.inl hgt)

theorem lex2_antisymm {β : Type} {leB : β → β → Prop}
    (h : ∀ a b : β, leB a b → leB b a → a = b) :
    ∀ p q : JsNum × β, lex2 leB p q → lex2 leB q p → p = q := by
  rintro p q (h1 | ⟨e1, h1⟩) (h2 | ⟨e2, h2⟩)
  · exact absurd h2 (lt_asymm h1)
  · exact absurd (e2 ▸ h1) (lt_irrefl q.1)
  · exact absurd (e1 ▸ h2) (lt_irrefl p.1)
  · exact Prod.ext e1 (h _ _ h1 h2)

theorem lexLe_refl (p : JsNum × JsNum × JsNum × JsNum × JsNum) : lexLe p p :=
  lex2_refl (lex2_refl (lex2_refl (lex2_refl le_refl))) p

theorem lexLe_trans {p q r : JsNum × JsNum × JsNum × JsNum × JsNum}
    (h1 : lexLe p q) (h2 : lexLe q r) : lexLe p r := by
  have key : ∀ x y z : JsNum × JsNum × JsNum × JsNum × JsNum,
      lexLe x y → lexLe y z → lexLe x z := by
    unfold lexLe
    exact lex2_trans (lex2_trans (lex2_trans (lex2_trans
      (fun _ _ _ ha hb => le_trans ha hb))))
  exact key p q r h1 h2

theorem lexLe_total (p q : JsNum × JsNum × JsNum × JsNum × JsNum) :
    lexLe p q ∨ lexLe q p :=
  lex2_total (lex2_total (lex2_total (lex2_total (fun a b => le_total a b)))) p q

theorem lexLe_antisymm {p q : JsNum × JsNum × JsNum × JsNum × JsNum}
    (h1 : lexLe p q) (h2 : lexLe q p) : p = q :=
  lex2_antisymm (lex2_antisymm (lex2_antisymm (lex2_antisymm
    (fun _ _ ha hb => le_antisymm ha hb)))) p q h1 h2

theorem cmpNum_le_zero_iff {a b : JsNum} : cmpNum a b ≤ 0 ↔ a ≤ b := by
  unfold cmpNum
  rcases lt_trichotomy a b with h | rfl | h
  · rw [if_pos h]
    simp [le_of_lt h]
  · rw [if_neg (lt_irrefl a), if_neg (lt_irrefl a)]
    simp
  · rw [if_neg (lt_asymm h), if_pos h]
    constructor
    · intro h'
      exact absurd h' (by omega)
    · intro h'
      exact absurd h' (not_le.mpr h)

theorem chain_le_iff (a b : JsNum) (rest : Int) (restLe : Prop)
    (hrest : rest ≤ 0 ↔ restLe) :
    ((if a ≠ b then cmpNum a b else rest) ≤ 0) ↔ (a < b ∨ (a = b ∧ restLe)) := by
  by_cases h : a = b
  · subst h
    rw [if_neg (by simp)]
    simp [lt_irrefl, hrest]
  · rw [if_pos h, cmpNum_le_zero_iff]
    constructor
    · intro h'
      exact Or.inl (lt_of_le_of_ne h' h)
    · rintro (h' | ⟨rfl, -⟩)
      · exact le_of_lt h'
      · exact absurd rfl h

theorem dtcmp_le_iff (p q : JsNum × JsNum × JsNum × JsNum × JsNum) :
    dtcmp p q ≤ 0 ↔ lexLe p q := by
  obtain ⟨y1, mo1, d1, h1, mi1⟩ := p
  obtain ⟨y2, mo2, d2, h2, mi2⟩ := q
  exact chain_le_iff y1 y2 _ _ (chain_le_iff mo1 mo2 _ _ (chain_le_iff d1 d2 _ _
    (chain_le_iff h1 h2 _ _ cmpNum_le_zero_iff)))

theorem dtLe_iff {a b : ExportMatch} : dtLe a b ↔ lexLe (dtTuple a) (dtTuple b) := by
  simp only [dtLe, decide_eq_true_eq, compareMatchesByDateTime]
  exact dtcmp_le_iff _ _

theorem dtLe_trans (a b c : ExportMatch) (h1 : dtLe a b) (h2 : dtLe b c) : dtLe a c := by
  rw [dtLe_iff] at h1 h2 ⊢
  exact lexLe_trans h1 h2

theorem dtLe_total (a b : ExportMatch) : dtLe a b || dtLe b a := by
  rcases lexLe_total (dtTuple a) (dtTuple b) with h | h <;>
    simp [dtLe_iff.mpr h]

theorem dtLe_of_dtTuple_eq {a b : ExportMatch} (h : dtTuple a = dtTuple b) : dtLe a b :=
  dtLe_iff.mpr (h ▸ lexLe_refl (dtTuple a))

/-! ### Stability of the stable sort on comparator-equal classes -/

/-- If all elements satisfying `p` are mutually `le`-comparable both
ways (a single comparator-equivalence class), then a stable sort does
not reorder them: filtering the sorted list by `p` gives exactly the
filtered input. -/
theorem mergeSort_filter_stable {α : Type} (le : α → α → Bool)
    (htrans : ∀ a b c : α, le a b → le b c → le a c)
    (htotal : ∀ a b : α, le a b || le b a)
    (p : α → Bool) (l : List α)
    (hp : ∀ a b : α, p a → p b → le a b) :
    (l.mergeSort le).filter p = l.filter p := by
  have hpw : (l.filter p).Pairwise (fun a b => le a b) := by
    apply List.pairwise_of_forall_mem_list
    intro a ha b hb
    exact hp a b (List.of_mem_filter ha) (List.of_mem_filter hb)
  have hsub : List.Sublist (l.filter p) (l.mergeSort le) :=
    List.sublist_mergeSort htrans htotal hpw (List.filter_sublist l)
  have hself : (l.filter p).filter p = l.filter p :=
    List.filter_eq_self.mpr (fun a ha => List.of_mem_filter ha)
  have hsub2 : List.Sublist (l.filter p) ((l.mergeSort le).filter p) := by
    have h := hsub.filter p
    rwa [hself] at h
  have hperm : List.Perm ((l.mergeSort le).filter p) (l.filter p) :=
    (List.mergeSort_perm l le).filter p
  exact (hsub2.eq_of_length hperm.length_eq.symm).symm

/-! ### The grouping map -/

theorem addMatch_map_key (gs : List MonthGroup) (kl : KeyLabel) (m : ExportMatch) :
    (addMatch gs kl m).map MonthGroup.key =
      if kl.key ∈ gs.map MonthGroup.key then gs.map MonthGroup.key
      else gs.map MonthGroup.key ++ [kl.key] := by
  induction gs with
  | nil => simp [addMatch]
  | cons g gs ih =>
    by_cases hgk : g.key = kl.key
    · simp [addMatch, hgk]
    · simp only [addMatch, if_neg hgk, List.map_cons, ih, List.mem_cons]
      have : ¬kl.key = g.key := fun h => hgk h.symm
      by_cases hmem : kl.key ∈ gs.map MonthGroup.key <;> simp [hmem, this]

theorem addMatch_keys_nodup {gs : List MonthGroup} (h : (gs.map MonthGroup.key).Nodup)
    (kl : KeyLabel) (m : ExportMatch) :
    ((addMatch gs kl m).map MonthGroup.key).Nodup := by
  rw [addMatch_map_key]
  by_cases hmem : kl.key ∈ gs.map MonthGroup.key
  · simpa [hmem] using h
  · simp [hmem, List.nodup_append, h]

theorem foldl_addMatch_keys_nodup (ms : List ExportMatch) :
    ∀ gs : List MonthGroup, (gs.map MonthGroup.key).Nodup →
      ((ms.foldl (fun gs m => addMatch gs (getMonthKeyAndLabel m.datum) m) gs).map
        MonthGroup.key).Nodup := by
  induction ms with
  | nil => intro gs h; simpa using h
  | cons m ms ih =>
    intro gs h
    rw [List.foldl_cons]
    exact ih _ (addMatch_keys_nodup h _ m)

theorem buildGroups_keys_nodup (ms : List ExportMatch) :
    ((buildGroups ms).map MonthGroup.key).Nodup :=
  foldl_addMatch_keys_nodup ms [] (by simp)

theorem entryMatches_nil (k : String) : entryMatches k [] = [] := rfl

theorem entryMatches_cons (k : String) (g : MonthGroup) (gs : List MonthGroup) :
    entryMatches k (g :: gs) = if g.key = k then g.records else entryMatches k gs := by
  by_cases h : g.key = k
  · simp [entryMatches, List.find?, h]
  · have hb : (g.key == k) = false := beq_eq_false_iff_ne.mpr h
    simp [entryMatches, List.find?, hb, h]

theorem entryMatches_addMatch (gs : List MonthGroup) (kl : KeyLabel) (m : ExportMatch)
    (k : String) :
    entryMatches k (addMatch gs kl m) =
      entryMatches k gs ++ (if kl.key = k then [m] else []) := by
  induction gs with
  | nil =>
    rw [show addMatch [] kl m = [⟨kl.key, kl.label, [m]⟩] from rfl, entryMatches_cons]
    by_cases hk : kl.key = k <;> simp [hk, entryMatches_nil]
  | cons g gs ih =>
    by_cases hgk : g.key = kl.key
    · rw [show addMatch (g :: gs) kl m = ⟨g.key, g.label, g.records ++ [m]⟩ :: gs from by
        simp [addMatch, hgk], entryMatches_cons, entryMatches_cons]
      by_cases hk : g.key = k
      · rw [if_pos hk, if_pos hk, if_pos (hgk.symm.trans hk)]
      · rw [if_neg hk, if_neg hk, if_neg (fun h => hk (hgk.trans h))]
        simp
    · rw [show addMatch (g :: gs) kl m = g :: addMatch gs kl m from by
        simp [addMatch, hgk], entryMatches_cons, entryMatches_cons]
      by_cases hk : g.key = k
      · rw [if_pos hk, if_pos hk,
          if_neg (fun h => hgk (hk.trans h.symm))]
        simp
      · rw [if_neg hk, if_neg hk]
        exact ih

theorem foldl_addMatch_entryMatches (ms : List ExportMatch) (k : String) :
    ∀ gs : List MonthGroup,
      entryMatches k (ms.foldl (fun gs m => addMatch gs (getMonthKeyAndLabel m.datum) m) gs) =
        entryMatches k gs ++ ms.filter (fun m => keyOf m == k) := by
  induction ms with
  | nil => intro gs; simp
  | cons m ms ih =>
    intro gs
    rw [List.foldl_cons, ih, entryMatches_addMatch, List.filter_cons, List.append_assoc]
    by_cases hk : (getMonthKeyAndLabel m.datum).key = k
    · simp [keyOf, hk]
    · simp [keyOf, hk]

/-- The records collected under key `k` are exactly the input records
routed to `k`, in input order. -/
theorem entryMatches_buildGroups (ms : List ExportMatch) (k : String) :
    entryMatches k (buildGroups ms) = ms.filter (fun m => keyOf m == k) := by
  have h := foldl_addMatch_entryMatches ms k []
  simpa [entryMatches_nil] using h

theorem flatten_addMatch (gs : List MonthGroup) (kl : KeyLabel) (m : ExportMatch) :
    List.Perm (((addMatch gs kl m).map MonthGroup.records).flatten)
      (((gs.map MonthGroup.records).flatten) ++ [m]) := by
  induction gs with
  | nil => simp [addMatch]
  | cons g gs ih =>
    by_cases hgk : g.key = kl.key
    · simp only [addMatch, if_pos hgk, List.map_cons, List.flatten_cons]
      rw [List.append_assoc, List.append_assoc]
      exact List.Perm.append_left g.records List.perm_append_comm
    · simp only [addMatch, if_neg hgk, List.map_cons, List.flatten_cons]
      have h1 := List.Perm.append_left g.records ih
      rwa [← List.append_assoc] at h1

theorem foldl_addMatch_flatten_perm (ms : List ExportMatch) :
    ∀ gs : List MonthGroup,
      List.Perm
        (((ms.foldl (fun gs m => addMatch gs (getMonthKeyAndLabel m.datum) m) gs).map
          MonthGroup.records).flatten)
        (((gs.map MonthGroup.records).flatten) ++ ms) := by
  induction ms with
  | nil => intro gs; simp
  | cons m ms ih =>
    intro gs
    rw [List.foldl_cons]
    refine (ih _).trans ?_
    refine (List.Perm.append_right ms (flatten_addMatch gs _ m)).trans ?_
    rw [List.append_assoc, List.singleton_append]

/-- Grouping neither drops nor duplicates records: the group contents
together are a permutation of the input. -/
theorem buildGroups_flatten_perm (ms : List ExportMatch) :
    List.Perm (((buildGroups ms).map MonthGroup.records).flatten) ms := by
  have h := foldl_addMatch_flatten_perm ms []
  simpa using h

theorem addMatch_key_invariant {gs : List MonthGroup} {kl : KeyLabel} {m : ExportMatch}
    (hgs : ∀ g ∈ gs, ∀ m' ∈ g.records, keyOf m' = g.key) (hm : keyOf m = kl.key) :
    ∀ g ∈ addMatch gs kl m, ∀ m' ∈ g.records, keyOf m' = g.key := by
  induction gs with
  | nil =>
    intro g hg m' hm'
    simp only [addMatch, List.mem_singleton] at hg
    subst hg
    simp only [List.mem_singleton] at hm'
    subst hm'
    exact hm
  | cons g0 gs ih =>
    by_cases hgk : g0.key = kl.key
    · intro g hg m' hm'
      rw [show addMatch (g0 :: gs) kl m = ⟨g0.key, g0.label, g0.records ++ [m]⟩ :: gs from by
        simp [addMatch, hgk]] at hg
      rcases List.mem_cons.mp hg with rfl | hg
      · simp only [List.mem_append, List.mem_singleton] at hm'
        rcases hm' with hm' | rfl
        · exact hgs g0 (List.mem_cons_self _ _) m' hm'
        · exact hm.trans hgk.symm
      · exact hgs g (List.mem_cons_of_mem _ hg) m' hm'
    · intro g hg m' hm'
      rw [show addMatch (g0 :: gs) kl m = g0 :: addMatch gs kl m from by
        simp [addMatch, hgk]] at hg
      rcases List.mem_cons.mp hg with rfl | hg
      · exact hgs g (List.mem_cons_self _ _) m' hm'
      · exact ih (fun g' hg' => hgs g' (List.mem_cons_of_mem _ hg')) g hg m' hm'

theorem foldl_addMatch_key_invariant (ms : List ExportMatch) :
    ∀ gs : List MonthGroup, (∀ g ∈ gs, ∀ m' ∈ g.records, keyOf m' = g.key) →
      ∀ g ∈ ms.foldl (fun gs m => addMatch gs (getMonthKeyAndLabel m.datum) m) gs,
        ∀ m' ∈ g.records, keyOf m' = g.key := by
  induction ms with
  | nil => intro gs h; simpa using h
  | cons m ms ih =>
    intro gs h
    rw [List.foldl_cons]
    exact ih _ (addMatch_key_invariant h rfl)

/-- Every record stored in a group carries that group's key. -/
theorem buildGroups_key_invariant (ms : List ExportMatch) :
    ∀ g ∈ buildGroups ms, ∀ m' ∈ g.records, keyOf m' = g.key :=
  foldl_addMatch_key_invariant ms [] (by simp)

/-! ### The sorted month entries -/

theorem sortedEntries_pairwise_le (ms : List ExportMatch) :
    ((buildGroups ms).mergeSort monthLe).Pairwise
      (fun a b => compareKeys a.key b.key ≤ 0) := by
  have h := List.sorted_mergeSort monthLe_trans monthLe_total (buildGroups ms)
  exact h.imp (fun hab => by simpa [monthLe, decide_eq_true_eq] using hab)

theorem sortedEntries_keys_nodup (ms : List ExportMatch) :
    (((buildGroups ms).mergeSort monthLe).map MonthGroup.key).Nodup := by
  have hperm : List.Perm ((buildGroups ms).mergeSort monthLe) (buildGroups ms) :=
    List.mergeSort_perm _ _
  exact ((hperm.map MonthGroup.key).nodup_iff).mpr (buildGroups_keys_nodup ms)

/-! ### The id-assignment loops -/

theorem mkParentRows_eq (gs : List MonthGroup) : ∀ nid : Nat,
    mkParentRows nid gs = (parentSec nid gs, mapSec nid gs, nid + gs.length) := by
  induction gs with
  | nil => intro nid; simp [mkParentRows, parentSec, mapSec]
  | cons g gs ih =>
    intro nid
    simp only [mkParentRows, parentSec, mapSec, ih (nid + 1), List.length_cons,
      Prod.mk.injEq]
    refine ⟨trivial, trivial, ?_⟩
    omega

theorem parentSec_length (gs : List MonthGroup) : ∀ nid : Nat,
    (parentSec nid gs).length = gs.length := by
  induction gs with
  | nil => intro nid; rfl
  | cons g gs ih => intro nid; simp [parentSec, ih]

theorem parentSec_ids (gs : List MonthGroup) : ∀ nid : Nat,
    (parentSec nid gs).map JiraRow.workItemId = List.range' nid gs.length := by
  induction gs with
  | nil => intro nid; rfl
  | cons g gs ih =>
    intro nid
    simp only [parentSec, List.map_cons, ih, List.length_cons, List.range'_succ,
      mkParentRow, List.cons.injEq]

theorem parentSec_getElem? (gs : List MonthGroup) : ∀ (nid i : Nat) (g : MonthGroup),
    gs[i]? = some g → (parentSec nid gs)[i]? = some (mkParentRow g.key g.label (nid + i)) := by
  induction gs with
  | nil => intro nid i g h; simp at h
  | cons g0 gs ih =>
    intro nid i g h
    cases i with
    | zero =>
      simp only [List.getElem?_cons_zero, Option.some.injEq] at h
      subst h
      simp [parentSec]
    | succ i =>
      simp only [List.getElem?_cons_succ] at h
      have := ih (nid + 1) i g h
      simpa [parentSec, Nat.add_assoc, Nat.add_comm 1 i] using this

theorem parentSec_shape (gs : List MonthGroup) : ∀ nid : Nat, ∀ r ∈ parentSec nid gs,
    r.issueType = "Task" ∧ r.parent = none := by
  induction gs with
  | nil => intro nid r hr; simp [parentSec] at hr
  | cons g gs ih =>
    intro nid r hr
    rcases List.mem_cons.mp hr with rfl | hr
    · exact ⟨rfl, rfl⟩
    · exact ih (nid + 1) r hr

theorem mapSec_lookup (gs : List MonthGroup) (hnodup : (gs.map MonthGroup.key).Nodup) :
    ∀ (nid i : Nat) (g : MonthGroup), gs[i]? = some g →
      (mapSec nid gs).lookup g.key = some (nid + i) := by
  induction gs with
  | nil => intro nid i g h; simp at h
  | cons g0 gs ih =>
    intro nid i g h
    cases i with
    | zero =>
      simp only [List.getElem?_cons_zero, Option.some.injEq] at h
      subst h
      simp [mapSec, List.lookup]
    | succ i =>
      simp only [List.getElem?_cons_succ] at h
      simp only [List.map_cons, List.nodup_cons] at hnodup
      have hgmem : g ∈ gs := List.getElem?_mem h
      have hne : g.key ≠ g0.key := by
        intro heq
        exact hnodup.1 (heq ▸ List.mem_map_of_mem MonthGroup.key hgmem)
      have hb : (g.key == g0.key) = false := beq_eq_false_iff_ne.mpr hne
      simp only [mapSec, List.lookup, hb]
      have := ih hnodup.2 (nid + 1) i g h
      simpa [Nat.add_assoc, Nat.add_comm 1 i] using this

theorem childRowsOf_length (pid : Nat) (ms : List ExportMatch) : ∀ nid : Nat,
    (childRowsOf pid nid ms).length = ms.length := by
  induction ms with
  | nil => intro nid; rfl
  | cons m ms ih => intro nid; simp [childRowsOf, ih]

theorem childRowsOf_ids (pid : Nat) (ms : List ExportMatch) : ∀ nid : Nat,
    (childRowsOf pid nid ms).map JiraRow.workItemId = List.range' nid ms.length := by
  induction ms with
  | nil => intro nid; rfl
  | cons m ms ih =>
    intro nid
    simp only [childRowsOf, List.map_cons, ih, List.length_cons, List.range'_succ,
      mkChildRow, List.cons.injEq]

theorem childRowsOf_shape (pid : Nat) (ms : List ExportMatch) : ∀ nid : Nat,
    ∀ r ∈ childRowsOf pid nid ms,
      ∃ m ∈ ms, r = mkChildRow m r.workItemId pid := by
  induction ms with
  | nil => intro nid r hr; simp [childRowsOf] at hr
  | cons m ms ih =>
    intro nid r hr
    rcases List.mem_cons.mp hr with rfl | hr
    · exact ⟨m, List.mem_cons_self _ _, rfl⟩
    · obtain ⟨m', hm', hr'⟩ := ih (nid + 1) r hr
      exact ⟨m', List.mem_cons_of_mem _ hm', hr'⟩

theorem mkChildRows_eq_childSec (gs : List MonthGroup) :
    ∀ (mp : List (String × Nat)) (pid nid : Nat),
      (∀ (i : Nat) (g : MonthGroup), gs[i]? = some g → mp.lookup g.key = some (pid + i)) →
      0 < pid →
      mkChildRows mp nid gs = childSec pid nid gs := by
  induction gs with
  | nil => intro mp pid nid _ _; rfl
  | cons g gs ih =>
    intro mp pid nid hlk hpid
    have h0 : mp.lookup g.key = some pid := by
      simpa using hlk 0 g (by simp)
    simp only [mkChildRows, h0, childSec]
    rw [if_neg (by omega)]
    congr 1
    refine ih mp (pid + 1) (nid + (g.records.mergeSort dtLe).length) ?_ (by omega)
    intro i g' hg'
    have := hlk (i + 1) g' (by simpa using hg')
    simpa [Nat.add_assoc, Nat.add_comm 1 i] using this

theorem childSec_length (gs : List MonthGroup) : ∀ pid nid : Nat,
    (childSec pid nid gs).length = ((gs.map (fun g => g.records.length)).sum) := by
  induction gs with
  | nil => intro pid nid; rfl
  | cons g gs ih =>
    intro pid nid
    simp [childSec, childRowsOf_length, ih]

theorem childSec_ids (gs : List MonthGroup) : ∀ pid nid : Nat,
    (childSec pid nid gs).map JiraRow.workItemId =
      List.range' nid ((gs.map (fun g => g.records.length)).sum) := by
  induction gs with
  | nil => intro pid nid; rfl
  | cons g gs ih =>
    intro pid nid
    rw [show childSec pid nid (g :: gs) =
        childRowsOf pid nid (g.records.mergeSort dtLe) ++
          childSec (pid + 1) (nid + (g.records.mergeSort dtLe).length) gs from rfl]
    rw [List.map_append, childRowsOf_ids, ih, List.length_mergeSort,
      List.range'_append_1, List.map_cons, List.sum_cons]
    exact congrArg (List.range' nid) (Nat.add_comm _ _)

theorem childSec_shape (gs : List MonthGroup) : ∀ pid nid : Nat, ∀ r ∈ childSec pid nid gs,
    ∃ (i : Nat) (g : MonthGroup) (m : ExportMatch),
      gs[i]? = some g ∧ m ∈ g.records ∧ r = mkChildRow m r.workItemId (pid + i) := by
  induction gs with
  | nil => intro pid nid r hr; simp [childSec] at hr
  | cons g gs ih =>
    intro pid nid r hr
    rcases List.mem_append.mp hr with hr | hr
    · obtain ⟨m, hm, hrm⟩ := childRowsOf_shape pid _ nid r hr
      refine ⟨0, g, m, by simp, ?_, by simpa using hrm⟩
      exact (List.mem_mergeSort).mp hm
    · obtain ⟨i, g', m, hg', hm, hrm⟩ := ih (pid + 1) _ r hr
      refine ⟨i + 1, g', m, by simpa using hg', hm, ?_⟩
      rw [hrm]
      congr 1
      omega

/-- Characterization of `exportToJiraCSV` on nonempty input: the parent
section (one `Task` row per sorted month entry, ids `1, 2, …`) followed
by the child section (per entry, its stably sorted records as
`Sub-task` rows pointing at the entry's parent id, the id counter
continuing after the parent ids). -/
theorem exportToJiraCSV_eq (ms : List ExportMatch) (hne : ms ≠ []) :
    exportToJiraCSV ms =
      parentSec 1 ((buildGroups ms).mergeSort monthLe) ++
        childSec 1 (((buildGroups ms).mergeSort monthLe).length + 1)
          ((buildGroups ms).mergeSort monthLe) := by
  have hne' : ¬(ms.isEmpty = true) := by
    cases ms with
    | nil => exact absurd rfl hne
    | cons a l => simp
  have hunfold : exportToJiraCSV ms =
      (mkParentRows 1 ((buildGroups ms).mergeSort monthLe)).1 ++
        mkChildRows (mkParentRows 1 ((buildGroups ms).mergeSort monthLe)).2.1
          (mkParentRows 1 ((buildGroups ms).mergeSort monthLe)).2.2
          ((buildGroups ms).mergeSort monthLe) := by
    unfold exportToJiraCSV
    rw [if_neg hne']
  rw [hunfold, mkParentRows_eq]
  congr 1
  rw [mkChildRows_eq_childSec ((buildGroups ms).mergeSort monthLe) _ 1
    (1 + ((buildGroups ms).mergeSort monthLe).length)
    (fun i g hg => mapSec_lookup _ (sortedEntries_keys_nodup ms) 1 i g hg)
    (by omega)]
  rw [Nat.add_comm 1 ((buildGroups ms).mergeSort monthLe).length]

/-! ### Number-coercion and padding facts -/

theorem jsNum_empty : jsNum "" = some (jsn 0) := rfl

theorem takeWhile_all {p : Char → Bool} : ∀ l : List Char, l.all p → l.takeWhile p = l
  | [], _ => rfl
  | c :: rest, h => by
    simp only [List.all_cons, Bool.and_eq_true] at h
    simp [List.takeWhile_cons, h.1, takeWhile_all rest h.2]

theorem dropWhile_all {p : Char → Bool} : ∀ l : List Char, l.all p → l.dropWhile p = []
  | [], _ => rfl
  | c :: rest, h => by
    simp only [List.all_cons, Bool.and_eq_true] at h
    simp [List.dropWhile_cons, h.1, dropWhile_all rest h.2]

theorem digit_not_ws {c : Char} (h : c.isDigit = true) : isJsWs c = false := by
  by_contra hws
  rw [Bool.not_eq_false] at hws
  have hmem : c ∈ jsWsChars := by
    simpa [isJsWs] using hws
  simp only [jsWsChars, List.mem_cons, List.not_mem_nil, or_false] at hmem
  rcases hmem with rfl | rfl | rfl | rfl | rfl | rfl | rfl | rfl | rfl | rfl | rfl | rfl |
    rfl | rfl | rfl | rfl | rfl | rfl | rfl | rfl | rfl | rfl | rfl | rfl | rfl <;>
    exact absurd h (by decide)

theorem dropTrailWs_cons {c : Char} {l : List Char} (h : isJsWs c = false) :
    dropTrailWs (c :: l) = c :: dropTrailWs l := by
  rw [dropTrailWs]
  cases hdt : dropTrailWs l with
  | nil => simp [h]
  | cons x xs => rfl

theorem dropTrailWs_all : ∀ l : List Char, (∀ c ∈ l, isJsWs c = false) → dropTrailWs l = l
  | [], _ => rfl
  | c :: rest, h => by
    rw [dropTrailWs_cons (h c (List.mem_cons_self c rest)),
      dropTrailWs_all rest (fun x hx => h x (List.mem_cons_of_mem c hx))]

theorem trimJsWs_digits {l : List Char} (h : l.all (·.isDigit)) : trimJsWs l = l := by
  have hnw : ∀ c ∈ l, isJsWs c = false := fun c hc =>
    digit_not_ws (List.all_eq_true.mp h c hc)
  unfold trimJsWs
  cases l with
  | nil => rfl
  | cons c rest =>
    rw [List.dropWhile_cons, if_neg (by rw [hnw c (List.mem_cons_self c rest)]; simp)]
    exact dropTrailWs_all _ hnw

theorem parseDec_digits {l : List Char} (h1 : l ≠ []) (h2 : l.all (·.isDigit)) :
    parseDec l = some ((digitsToNat l : Nat) : ℚ) := by
  unfold parseDec
  dsimp only
  rw [takeWhile_all l h2, dropWhile_all l h2]
  dsimp only
  rw [if_neg h1]

theorem jsNum_digits (s : String) (h1 : s.data ≠ []) (h2 : s.data.all (·.isDigit)) :
    jsNum s = some (jsn ((digitsToNat s.data : Nat) : ℚ)) := by
  unfold jsNum
  rw [trimJsWs_digits h2]
  cases hd : s.data with
  | nil => exact absurd hd h1
  | cons c rest =>
    rw [hd] at h2
    simp only [List.all_cons, Bool.and_eq_true] at h2
    dsimp only
    unfold jsNumCore
    rw [if_neg (fun he => absurd h2.1 (by rw [he]; decide)),
      if_neg (fun he => absurd h2.1 (by rw [he]; decide)),
      if_neg (fun he => by
        rw [show "Infinity".data = 'I' :: ['n', 'f', 'i', 'n', 'i', 't', 'y'] from rfl] at he
        have hcI : c = 'I' := (List.cons.injEq c rest 'I' _).mp he |>.1
        exact absurd h2.1 (by rw [hcI]; decide))]
    have hdec : (parseDec (c :: rest)).map jsn =
        some (jsn ((digitsToNat (c :: rest) : Nat) : ℚ)) := by
      rw [parseDec_digits (List.cons_ne_nil c rest)
        (by simp [List.all_cons, h2.1, h2.2])]
      rfl
    by_cases hc0 : c = '0'
    · rw [if_pos hc0]
      cases rest with
      | nil => exact hdec
      | cons c2 r =>
        have h2' : c2.isDigit = true := by
          have := h2.2
          simp only [List.all_cons, Bool.and_eq_true] at this
          exact this.1
        dsimp only
        rw [if_neg (by rintro (rfl | rfl) <;> exact absurd h2' (by decide)),
          if_neg (by rintro (rfl | rfl) <;> exact absurd h2' (by decide)),
          if_neg (by rintro (rfl | rfl) <;> exact absurd h2' (by decide))]
        exact hdec
    · rw [if_neg hc0]
      exact hdec

theorem digitsToNat_zero_cons (l : List Char) : digitsToNat ('0' :: l) = digitsToNat l := rfl
theorem digitsToNat_replicate_zero (l : List Char) :
    ∀ k : Nat, digitsToNat (List.replicate k '0' ++ l) = digitsToNat l := by
  intro k
  induction k with
  | zero => rfl
  | succ k ih =>
    rw [List.replicate_succ, List.cons_append, digitsToNat_zero_cons, ih]

theorem padStart_data (s : String) (n : Nat) (c : Char) :
    (padStart s n c).data = List.replicate (n - s.length) c ++ s.data := rfl

theorem padStart_length (s : String) (n : Nat) (c : Char) (h : s.length ≤ n) :
    (padStart s n c).length = n := by
  have h2 : (padStart s n c).data.length = n := by
    rw [padStart_data, List.length_append, List.length_replicate]
    have h3 : s.data.length = s.length := rfl
    omega
  exact h2

theorem padStart_digits (s : String) (h : s.data.all (·.isDigit)) :
    ((padStart s 2 '0').data.all (·.isDigit)) := by
  rw [padStart_data]
  simp only [List.all_append, Bool.and_eq_true]
  refine ⟨?_, h⟩
  simp only [List.all_eq_true]
  intro c hc
  rw [List.eq_of_mem_replicate hc]
  decide

theorem padStart_value (s : String) :
    digitsToNat ((padStart s 2 '0').data) = digitsToNat s.data := by
  rw [padStart_data, digitsToNat_replicate_zero]

/-! ### Evaluation of `getMonthKeyAndLabel` on the two kinds of input -/

/-- The fallback cases of `getMonthKeyAndLabel`: empty date, wrong token
count, or a month token that is `NaN`, or numeric but zero, negative or
out of `1–12`, all land in the `"ohne-datum"` bucket (the function never
reaches the key-building branch). -/
theorem getMonthKeyAndLabel_bad (datum : String)
    (hbad : datum = "" ∨ (jsSplit datum '.').length ≠ 3 ∨
      jsNum (((jsSplit datum '.')[1]?).getD "") = none ∨
      (∃ v : JsNum, jsNum (((jsSplit datum '.')[1]?).getD "") = some v ∧
        (v < jsn 1 ∨ jsn 12 < v))) :
    getMonthKeyAndLabel datum = ⟨"ohne-datum", "Ohne Datum"⟩ := by
  by_cases hd : datum = ""
  · simp [getMonthKeyAndLabel, hd]
  · unfold getMonthKeyAndLabel
    rw [if_neg hd]
    cases hsp : jsSplit datum '.' with
    | nil => rfl
    | cons a tail =>
      cases tail with
      | nil => rfl
      | cons b tail2 =>
        cases tail2 with
        | nil => rfl
        | cons c tail3 =>
          cases tail3 with
          | cons e l => rfl
          | nil =>
            rw [hsp] at hbad
            rcases hbad with hbad | hbad | hbad | hbad
            · exact absurd hbad hd
            · simp at hbad
            · simp only [List.getElem?_cons_succ, List.getElem?_cons_zero,
                Option.getD_some] at hbad
              dsimp only
              rw [hbad]
            · simp only [List.getElem?_cons_succ, List.getElem?_cons_zero,
                Option.getD_some] at hbad
              obtain ⟨v, hv, hrange⟩ := hbad
              dsimp only
              rw [hv]
              cases hy : jsNum c with
              | none => rfl
              | some yv =>
                dsimp only
                rcases hrange with h | h
                · rw [if_pos (Or.inl h)]
                · rw [if_pos (Or.inr (Or.inl h))]

/-- The key-building case of `getMonthKeyAndLabel`: exactly three
tokens, a numeric month in `1–12` and a numeric nonzero year produce
the `` `${yearStr}-${monthStr.padStart(2, "0")}` `` key; the day token is
never looked at. -/
theorem getMonthKeyAndLabel_valid (datum d mo y : String)
    (hsplit : jsSplit datum '.' = [d, mo, y])
    (mv yv : JsNum) (hmo : jsNum mo = some mv) (hy : jsNum y = some yv)
    (h1 : jsn 1 ≤ mv) (h2 : mv ≤ jsn 12) (hy0 : yv ≠ jsn 0) :
    getMonthKeyAndLabel datum =
      ⟨y ++ "-" ++ padStart mo 2 '0', monthNameAt mv ++ " " ++ jsNumToString yv⟩ := by
  have hd : datum ≠ "" := by
    intro h
    rw [h] at hsplit
    simp [jsSplit, splitChars] at hsplit
  unfold getMonthKeyAndLabel
  rw [if_neg hd, hsplit]
  dsimp only
  rw [hmo, hy]
  dsimp only
  rw [if_neg (by push_neg; exact ⟨h1, h2, hy0⟩)]

/-! ### Further helpers -/

/-- A string starting with the letter `o` is not JS-numeric. -/
theorem jsNum_o_head {rest : List Char} (y : String) (hyd : y.data = 'o' :: rest) :
    jsNum y = none := by
  have htrim : trimJsWs ('o' :: rest) = 'o' :: dropTrailWs rest := by
    unfold trimJsWs
    rw [List.dropWhile_cons, if_neg (show ¬ isJsWs 'o' = true by decide)]
    exact dropTrailWs_cons (show isJsWs 'o' = false by decide)
  unfold jsNum
  rw [hyd, htrim]
  rfl

/-- A key built from a JS-numeric nonzero year token can never collide
with the undated bucket's key: `"ohne-datum"` starts with an `o`, and no
JS-numeric string does. -/
theorem key_ne_ohne (mo y : String) (yv : JsNum) (hy : jsNum y = some yv)
    (hy0 : yv ≠ jsn 0) :
    y ++ "-" ++ padStart mo 2 '0' ≠ "ohne-datum" := by
  intro heq
  have hdata := congrArg String.data heq
  rw [String.data_append, String.data_append] at hdata
  cases hyd : y.data with
  | nil =>
    have h0 : jsNum y = some (jsn 0) := by
      unfold jsNum
      rw [hyd]
      rfl
    rw [h0] at hy
    simp only [Option.some.injEq] at hy
    exact hy0 hy.symm
  | cons c rest =>
    rw [hyd] at hdata
    rw [show "ohne-datum".data = ['o', 'h', 'n', 'e', '-', 'd', 'a', 't', 'u', 'm'] from rfl,
      show "-".data = ['-'] from rfl] at hdata
    have hc : c = 'o' := by
      have h5 := congrArg List.head? hdata
      simpa using h5
    subst hc
    rw [jsNum_o_head y hyd] at hy
    exact Option.noConfusion hy

/-- A record whose key is `k` ends up among the records stored under
`k`. -/
theorem mem_entryMatches_of {ms : List ExportMatch} {m : ExportMatch} (hm : m ∈ ms)
    (k : String) (hk : keyOf m = k) : m ∈ entryMatches k (buildGroups ms) := by
  rw [entryMatches_buildGroups]
  exact List.mem_filter.mpr ⟨hm, by simp [hk]⟩

theorem jsNumOr0_of_tokenBad {o : Option String} (h : tokenBad o) : jsNumOr0 o = jsn 0 := by
  rcases h with rfl | rfl | ⟨s, rfl, hs⟩
  · rfl
  · rfl
  · unfold jsNumOr0
    dsimp only
    rw [hs]

/-- Evaluation of the whole Jira export on a one-record input (used to
instantiate the general theorems at concrete inputs). -/
theorem exportToJiraCSV_single (m : ExportMatch) :
    exportToJiraCSV [m] =
      [mkParentRow (keyOf m) (getMonthKeyAndLabel m.datum).label 1, mkChildRow m 2 1] := by
  rw [exportToJiraCSV_eq [m] (by simp)]
  rw [show buildGroups [m] =
      [⟨(getMonthKeyAndLabel m.datum).key, (getMonthKeyAndLabel m.datum).label, [m]⟩] from rfl]
  rw [List.mergeSort_singleton]
  simp [parentSec, childSec, childRowsOf, List.mergeSort_singleton, keyOf]

/-! ### The claims -/

/-- C1: for every input list of records, the grouping step routes a
record whose date string is empty, has a token count other than three,
or whose month token is not a number in 1–12, to the undated bucket
`"ohne-datum"`; being a total function, the grouping never raises. -/
theorem spec_C1 (ms : List ExportMatch) (m : ExportMatch) (hm : m ∈ ms)
    (hbad : m.datum = "" ∨ (jsSplit m.datum '.').length ≠ 3 ∨
      jsNum (((jsSplit m.datum '.')[1]?).getD "") = none ∨
      (∃ v : JsNum, jsNum (((jsSplit m.datum '.')[1]?).getD "") = some v ∧
        (v < jsn 1 ∨ jsn 12 < v))) :
    getMonthKeyAndLabel m.datum = ⟨"ohne-datum", "Ohne Datum"⟩ ∧
    m ∈ entryMatches "ohne-datum" (buildGroups ms) := by
  have h := getMonthKeyAndLabel_bad m.datum hbad
  exact ⟨h, mem_entryMatches_of hm _ (by simp [keyOf, h])⟩

theorem spec_C1_witness :
    getMonthKeyAndLabel "banana" = ⟨"ohne-datum", "Ohne Datum"⟩ ∧
    (⟨"T", "W", "WT", "banana", "14:00", "H", "G", "", "Nein"⟩ : ExportMatch) ∈
      entryMatches "ohne-datum"
        (buildGroups [⟨"T", "W", "WT", "banana", "14:00", "H", "G", "", "Nein"⟩]) :=
  spec_C1 [⟨"T", "W", "WT", "banana", "14:00", "H", "G", "", "Nein"⟩]
    ⟨"T", "W", "WT", "banana", "14:00", "H", "G", "", "Nein"⟩
    (List.mem_singleton.mpr rfl)
    (Or.inr (Or.inl (by decide)))

/-- C2: for every input list of records, the sequence of month entries
(parent groups) of the hierarchical export is strictly ascending in the
lexicographic order of the group keys, with the undated bucket
`"ohne-datum"` always last, regardless of the order of the input. -/
theorem spec_C2 (ms : List ExportMatch) :
    ((buildGroups ms).mergeSort monthLe).Pairwise
      (fun a b => a.key ≠ "ohne-datum" ∧ (b.key = "ohne-datum" ∨ keyLt a.key b.key)) := by
  have h1 := sortedEntries_pairwise_le ms
  have h2 : ((buildGroups ms).mergeSort monthLe).Pairwise (fun a b => a.key ≠ b.key) :=
    (List.pairwise_map).mp (sortedEntries_keys_nodup ms)
  exact (h1.and h2).imp (fun h => compareKeys_strict h.1 h.2)

/-- C3: within each month group of the hierarchical export, the child
records are sorted ascending by the numeric (year, month, day, hour,
minute) tuple parsed from their date and time strings (missing or
unparseable components being zero), and records with equal tuples keep
their relative input order (the sort is stable). -/
theorem spec_C3 (ms : List ExportMatch) (g : MonthGroup)
    (_hg : g ∈ (buildGroups ms).mergeSort monthLe) :
    (g.records.mergeSort dtLe).Pairwise (fun a b => lexLe (dtTuple a) (dtTuple b)) ∧
    ∀ k : JsNum × JsNum × JsNum × JsNum × JsNum,
      (g.records.mergeSort dtLe).filter (fun m => decide (dtTuple m = k)) =
        g.records.filter (fun m => decide (dtTuple m = k)) := by
  constructor
  · have h := List.sorted_mergeSort dtLe_trans dtLe_total g.records
    exact h.imp (fun hab => dtLe_iff.mp hab)
  · intro k
    apply mergeSort_filter_stable dtLe dtLe_trans dtLe_total
    intro a b ha hb
    simp only [decide_eq_true_eq] at ha hb
    exact dtLe_of_dtTuple_eq (ha.trans hb.symm)

theorem spec_C3_witness :
    ((⟨"2025-03", "März 2025",
        [⟨"T", "W", "WT", "15.03.2025", "14:00", "H", "G", "", "Nein"⟩,
         ⟨"T", "W", "WT", "01.03.2025", "10:00", "H2", "G2", "", "Nein"⟩]⟩ :
      MonthGroup).records.mergeSort dtLe).Pairwise
        (fun a b => lexLe (dtTuple a) (dtTuple b)) ∧
    ((⟨"2025-03", "März 2025",
        [⟨"T", "W", "WT", "15.03.2025", "14:00", "H", "G", "", "Nein"⟩,
         ⟨"T", "W", "WT", "01.03.2025", "10:00", "H2", "G2", "", "Nein"⟩]⟩ :
      MonthGroup).records.mergeSort dtLe).filter
        (fun m => decide (dtTuple m = (jsn 2025, jsn 3, jsn 15, jsn 14, jsn 0))) =
      (⟨"2025-03", "März 2025",
        [⟨"T", "W", "WT", "15.03.2025", "14:00", "H", "G", "", "Nein"⟩,
         ⟨"T", "W", "WT", "01.03.2025", "10:00", "H2", "G2", "", "Nein"⟩]⟩ :
      MonthGroup).records.filter (fun m => decide (dtTuple m = (jsn 2025, jsn 3, jsn 15, jsn 14, jsn 0))) := by
  have h := spec_C3
    [⟨"T", "W", "WT", "15.03.2025", "14:00", "H", "G", "", "Nein"⟩,
     ⟨"T", "W", "WT", "01.03.2025", "10:00", "H2", "G2", "", "Nein"⟩]
    ⟨"2025-03", "März 2025",
      [⟨"T", "W", "WT", "15.03.2025", "14:00", "H", "G", "", "Nein"⟩,
       ⟨"T", "W", "WT", "01.03.2025", "10:00", "H2", "G2", "", "Nein"⟩]⟩
    (by
      rw [show buildGroups
          [⟨"T", "W", "WT", "15.03.2025", "14:00", "H", "G", "", "Nein"⟩,
           ⟨"T", "W", "WT", "01.03.2025", "10:00", "H2", "G2", "", "Nein"⟩] =
          [⟨"2025-03", "März 2025",
            [⟨"T", "W", "WT", "15.03.2025", "14:00", "H", "G", "", "Nein"⟩,
             ⟨"T", "W", "WT", "01.03.2025", "10:00", "H2", "G2", "", "Nein"⟩]⟩] from rfl,
        List.mergeSort_singleton]
      exact List.mem_singleton.mpr rfl)
  exact ⟨h.1, h.2 (jsn 2025, jsn 3, jsn 15, jsn 14, jsn 0)⟩

/-- C6: a record whose date string consists of three dot-separated
tokens with an all-digit month token of at most two digits whose value
is in 1–12 and an all-digit nonzero year token is grouped under the key
`YYYY-MM`: the year token, a hyphen, and the month zero-padded to two
digits (same numeric value, exactly two digit characters). -/
theorem spec_C6 (datum d mo y : String)
    (hsplit : jsSplit datum '.' = [d, mo, y])
    (hmod : mo.data.all (·.isDigit)) (hmon : mo.data ≠ []) (hmo2 : mo.length ≤ 2)
    (hm1 : 1 ≤ digitsToNat mo.data) (hm12 : digitsToNat mo.data ≤ 12)
    (hyd : y.data.all (·.isDigit)) (hyn : y.data ≠ []) (hy0 : digitsToNat y.data ≠ 0) :
    (getMonthKeyAndLabel datum).key = y ++ "-" ++ padStart mo 2 '0' ∧
    (padStart mo 2 '0').length = 2 ∧
    ((padStart mo 2 '0').data.all (·.isDigit)) ∧
    digitsToNat ((padStart mo 2 '0').data) = digitsToNat mo.data := by
  have hmo' : jsNum mo = some (jsn ((digitsToNat mo.data : Nat) : ℚ)) :=
    jsNum_digits mo hmon hmod
  have hy' : jsNum y = some (jsn ((digitsToNat y.data : Nat) : ℚ)) :=
    jsNum_digits y hyn hyd
  refine ⟨?_, padStart_length mo 2 '0' hmo2, padStart_digits mo hmod, padStart_value mo⟩
  rw [getMonthKeyAndLabel_valid datum d mo y hsplit _ _ hmo' hy'
    (jsn_le_jsn.mpr (by exact_mod_cast hm1)) (jsn_le_jsn.mpr (by exact_mod_cast hm12))
    (fun he => hy0 (by exact_mod_cast jsn_inj.mp he))]

theorem spec_C6_witness :
    (getMonthKeyAndLabel "15.03.2025").key = "2025" ++ "-" ++ padStart "03" 2 '0' ∧
    (padStart "03" 2 '0').length = 2 ∧
    ((padStart "03" 2 '0').data.all (·.isDigit)) ∧
    digitsToNat ((padStart "03" 2 '0').data) = digitsToNat "03".data :=
  spec_C6 "15.03.2025" "15" "03" "2025" (by decide) (by decide) (by decide) (by decide)
    (by decide) (by decide) (by decide) (by decide) (by decide)

/-- C9: `parseDateTime` is total — for every pair of strings it returns
a numeric 5-tuple `(year, month, day, hour, minute)` — and every
component whose token is missing, empty, or not a valid number is 0. -/
theorem spec_C9 (date time : String) :
    ∃ y mo d h mi : JsNum, parseDateTime date time = (y, mo, d, h, mi) ∧
      (tokenBad ((jsSplit date '.')[2]?) → y = jsn 0) ∧
      (tokenBad ((jsSplit date '.')[1]?) → mo = jsn 0) ∧
      (tokenBad ((jsSplit date '.')[0]?) → d = jsn 0) ∧
      (tokenBad ((jsSplit time ':')[0]?) → h = jsn 0) ∧
      (tokenBad ((jsSplit time ':')[1]?) → mi = jsn 0) := by
  refine ⟨_, _, _, _, _, rfl, ?_, ?_, ?_, ?_, ?_⟩ <;>
    exact fun hb => jsNumOr0_of_tokenBad hb

theorem spec_C9_witness : (parseDateTime "01.02.abcd" "10:30").1 = jsn 0 := by
  obtain ⟨y, mo, d, h, mi, heq, hy, -, -, -, -⟩ := spec_C9 "01.02.abcd" "10:30"
  rw [heq]
  exact hy (Or.inr (Or.inr ⟨"abcd", by decide, by decide⟩))

/-- C10: the grouping never inspects the day token — any date string
with exactly three dot-separated tokens, a numeric month in 1–12 and a
numeric nonzero year is grouped under that year-month key, not the
undated bucket, whatever the day token contains. -/
theorem spec_C10 (ms : List ExportMatch) (m : ExportMatch) (hm : m ∈ ms)
    (d mo y : String) (hsplit : jsSplit m.datum '.' = [d, mo, y])
    (mv yv : JsNum) (hmo : jsNum mo = some mv) (h1 : jsn 1 ≤ mv) (h2 : mv ≤ jsn 12)
    (hy : jsNum y = some yv) (hy0 : yv ≠ jsn 0) :
    (getMonthKeyAndLabel m.datum).key = y ++ "-" ++ padStart mo 2 '0' ∧
    (getMonthKeyAndLabel m.datum).key ≠ "ohne-datum" ∧
    m ∈ entryMatches (y ++ "-" ++ padStart mo 2 '0') (buildGroups ms) := by
  have hkl := getMonthKeyAndLabel_valid m.datum d mo y hsplit mv yv hmo hy h1 h2 hy0
  have hkey : (getMonthKeyAndLabel m.datum).key = y ++ "-" ++ padStart mo 2 '0' := by
    rw [hkl]
  refine ⟨hkey, ?_, mem_entryMatches_of hm _ (by simpa [keyOf] using hkey)⟩
  rw [hkey]
  exact key_ne_ohne mo y yv hy hy0

theorem spec_C10_witness :
    (getMonthKeyAndLabel "99.03.2025").key = "2025" ++ "-" ++ padStart "03" 2 '0' ∧
    (getMonthKeyAndLabel "99.03.2025").key ≠ "ohne-datum" ∧
    (⟨"T", "W", "WT", "99.03.2025", "", "H", "G", "", "Nein"⟩ : ExportMatch) ∈
      entryMatches ("2025" ++ "-" ++ padStart "03" 2 '0')
        (buildGroups [⟨"T", "W", "WT", "99.03.2025", "", "H", "G", "", "Nein"⟩]) :=
  spec_C10 [⟨"T", "W", "WT", "99.03.2025", "", "H", "G", "", "Nein"⟩]
    ⟨"T", "W", "WT", "99.03.2025", "", "H", "G", "", "Nein"⟩
    (List.mem_singleton.mpr rfl)
    "99" "03" "2025" (by decide) (jsn 3) (jsn 2025) (by decide) (by decide) (by decide)
    (by decide) (by decide)

/-- C4: in the hierarchical export of a non-empty input, work item ids
come from a single counter starting at 1 — parent rows first in group
order, then all child rows continuing the same counter — so in
row-emission order the ids are exactly `1, 2, …, #rows`: strictly
increasing and unique. -/
theorem spec_C4 (ms : List ExportMatch) (hne : ms ≠ []) :
    (exportToJiraCSV ms).map JiraRow.workItemId =
      List.range' 1 (exportToJiraCSV ms).length ∧
    List.Pairwise (· < ·) ((exportToJiraCSV ms).map JiraRow.workItemId) ∧
    ((exportToJiraCSV ms).map JiraRow.workItemId).Nodup := by
  have hmap : (exportToJiraCSV ms).map JiraRow.workItemId =
      List.range' 1 (exportToJiraCSV ms).length := by
    rw [exportToJiraCSV_eq ms hne, List.map_append, parentSec_ids, childSec_ids,
      List.length_append, parentSec_length, childSec_length]
    rw [show ((buildGroups ms).mergeSort monthLe).length + 1 =
        1 + ((buildGroups ms).mergeSort monthLe).length from Nat.add_comm _ _]
    rw [List.range'_append_1]
    exact congrArg (List.range' 1) (Nat.add_comm _ _)
  refine ⟨hmap, ?_, ?_⟩
  · rw [hmap]
    exact List.pairwise_lt_range' 1 _
  · rw [hmap]
    exact List.nodup_range' 1 _

theorem spec_C4_witness :
    (exportToJiraCSV [⟨"", "", "", "15.03.2025", "14:00", "", "", "", ""⟩]).map
        JiraRow.workItemId =
      List.range' 1 (exportToJiraCSV [⟨"", "", "", "15.03.2025", "14:00", "", "", "", ""⟩]).length ∧
    List.Pairwise (· < ·)
      ((exportToJiraCSV [⟨"", "", "", "15.03.2025", "14:00", "", "", "", ""⟩]).map
        JiraRow.workItemId) ∧
    ((exportToJiraCSV [⟨"", "", "", "15.03.2025", "14:00", "", "", "", ""⟩]).map
      JiraRow.workItemId).Nodup :=
  spec_C4 [⟨"", "", "", "15.03.2025", "14:00", "", "", "", ""⟩] (by simp)

/-- C5: every record is placed in exactly one group (the group contents
together are a permutation of the input, each under the record's own
key, keys pairwise distinct); the export has one child row per record;
and every row is either a parent row, or a child row built from a record
of the group at position `i` whose `Parent` field is `1 + i` — the work
item id of the parent row sitting at position `i` of the export. -/
theorem spec_C5 (ms : List ExportMatch) :
    List.Perm (((buildGroups ms).map MonthGroup.records).flatten) ms ∧
    (∀ g ∈ buildGroups ms, ∀ m ∈ g.records, keyOf m = g.key) ∧
    ((buildGroups ms).map MonthGroup.key).Nodup ∧
    (ms ≠ [] → (exportToJiraCSV ms).length =
      ((buildGroups ms).mergeSort monthLe).length + ms.length) ∧
    (∀ r ∈ exportToJiraCSV ms,
      (r.issueType = "Task" ∧ r.parent = none) ∨
      (∃ (i : Nat) (g : MonthGroup) (m : ExportMatch),
        ((buildGroups ms).mergeSort monthLe)[i]? = some g ∧ m ∈ g.records ∧
        r = mkChildRow m r.workItemId (1 + i) ∧
        (exportToJiraCSV ms)[i]? = some (mkParentRow g.key g.label (1 + i)))) := by
  refine ⟨buildGroups_flatten_perm ms, buildGroups_key_invariant ms,
    buildGroups_keys_nodup ms, ?_, ?_⟩
  · intro hne
    rw [exportToJiraCSV_eq ms hne, List.length_append, parentSec_length, childSec_length]
    congr 1
    have hperm : List.Perm ((buildGroups ms).mergeSort monthLe) (buildGroups ms) :=
      List.mergeSort_perm _ _
    have h1 : (((buildGroups ms).mergeSort monthLe).map (fun g => g.records.length)).sum
        = ((buildGroups ms).map (fun g => g.records.length)).sum :=
      (hperm.map (fun g => g.records.length)).sum_eq
    have h2 : ((buildGroups ms).map (fun g => g.records.length)).sum =
        (((buildGroups ms).map MonthGroup.records).flatten).length := by
      rw [List.length_flatten, List.map_map]
      rfl
    have h3 := (buildGroups_flatten_perm ms).length_eq
    rw [h1, h2, h3]
  · intro r hr
    by_cases hne : ms = []
    · subst hne
      rw [show exportToJiraCSV [] = [] from rfl] at hr
      exact absurd hr (List.not_mem_nil r)
    · rw [exportToJiraCSV_eq ms hne] at hr
      rcases List.mem_append.mp hr with hr | hr
      · exact Or.inl (parentSec_shape _ 1 r hr)
      · right
        obtain ⟨i, g, m, hig, hm, hrm⟩ := childSec_shape _ 1 _ r hr
        refine ⟨i, g, m, hig, hm, hrm, ?_⟩
        have hi : i < ((buildGroups ms).mergeSort monthLe).length := by
          rcases List.getElem?_eq_some_iff.mp hig with ⟨hlt, -⟩
          exact hlt
        rw [exportToJiraCSV_eq ms hne,
          List.getElem?_append_left (by rw [parentSec_length]; exact hi)]
        exact parentSec_getElem? _ 1 i g hig

theorem spec_C5_witness :
    List.Perm
      (((buildGroups [⟨"", "", "", "15.03.2025", "", "", "", "", ""⟩]).map
        MonthGroup.records).flatten)
      [⟨"", "", "", "15.03.2025", "", "", "", "", ""⟩] ∧
    keyOf ⟨"", "", "", "15.03.2025", "", "", "", "", ""⟩ = "2025-03" ∧
    ((buildGroups [⟨"", "", "", "15.03.2025", "", "", "", "", ""⟩]).map MonthGroup.key).Nodup ∧
    (exportToJiraCSV [⟨"", "", "", "15.03.2025", "", "", "", "", ""⟩]).length =
      ((buildGroups [⟨"", "", "", "15.03.2025", "", "", "", "", ""⟩]).mergeSort monthLe).length
        + 1 ∧
    ((mkParentRow (keyOf ⟨"", "", "", "15.03.2025", "", "", "", "", ""⟩)
        (getMonthKeyAndLabel "15.03.2025").label 1).issueType = "Task" ∧
      (mkParentRow (keyOf ⟨"", "", "", "15.03.2025", "", "", "", "", ""⟩)
        (getMonthKeyAndLabel "15.03.2025").label 1).parent = none ∨
    (∃ (i : Nat) (g : MonthGroup) (m : ExportMatch),
      ((buildGroups [⟨"", "", "", "15.03.2025", "", "", "", "", ""⟩]).mergeSort
        monthLe)[i]? = some g ∧ m ∈ g.records ∧
      mkParentRow (keyOf ⟨"", "", "", "15.03.2025", "", "", "", "", ""⟩)
          (getMonthKeyAndLabel "15.03.2025").label 1 =
        mkChildRow m (mkParentRow (keyOf ⟨"", "", "", "15.03.2025", "", "", "", "", ""⟩)
          (getMonthKeyAndLabel "15.03.2025").label 1).workItemId (1 + i) ∧
      (exportToJiraCSV [⟨"", "", "", "15.03.2025", "", "", "", "", ""⟩])[i]? =
        some (mkParentRow g.key g.label (1 + i)))) := by
  have h := spec_C5 [⟨"", "", "", "15.03.2025", "", "", "", "", ""⟩]
  refine ⟨h.1, ?_, h.2.2.1, h.2.2.2.1 (by simp), ?_⟩
  · exact h.2.1 ⟨"2025-03", "März 2025", [⟨"", "", "", "15.03.2025", "", "", "", "", ""⟩]⟩
      (by
        rw [show buildGroups [⟨"", "", "", "15.03.2025", "", "", "", "", ""⟩] =
          [⟨"2025-03", "März 2025", [⟨"", "", "", "15.03.2025", "", "", "", "", ""⟩]⟩]
          from rfl]
        exact List.mem_singleton.mpr rfl)
      ⟨"", "", "", "15.03.2025", "", "", "", "", ""⟩ (List.mem_singleton.mpr rfl)
  · exact h.2.2.2.2
      (mkParentRow (keyOf ⟨"", "", "", "15.03.2025", "", "", "", "", ""⟩)
        (getMonthKeyAndLabel "15.03.2025").label 1)
      (by
        rw [exportToJiraCSV_single ⟨"", "", "", "15.03.2025", "", "", "", "", ""⟩]
        exact List.mem_cons_self _ _)

/-- C7: the calendar export creates exactly one event per record with
both date and time non-empty and silently skips the others, while the
CSV and XLSX exports contain one row per input record unconditionally. -/
theorem spec_C7 (ms : List ExportMatch) (m : ExportMatch) (hm : m ∈ ms) :
    (exportToICS ms).length = ms.countP (fun x => x.datum != "" && x.uhrzeit != "") ∧
    (m.datum ≠ "" → m.uhrzeit ≠ "" → mkIcsEvent m ∈ exportToICS ms) ∧
    exportToICS ms = exportToICS (ms.filter (fun x => x.datum != "" && x.uhrzeit != "")) ∧
    csvCells m ∈ exportToCSV ms ∧
    csvCells m ∈ exportToXLSX ms ∧
    (exportToCSV ms).length = ms.length ∧
    (exportToXLSX ms).length = ms.length := by
  refine ⟨?_, ?_, ?_, ?_, ?_, ?_, ?_⟩
  · simp [exportToICS, List.countP_eq_length_filter]
  · intro h1 h2
    exact List.mem_map_of_mem _ (List.mem_filter.mpr ⟨hm, by simp [h1, h2]⟩)
  · simp [exportToICS, List.filter_filter]
  · exact List.mem_map_of_mem _ hm
  · exact List.mem_map_of_mem _ hm
  · simp [exportToCSV]
  · simp [exportToXLSX]

theorem spec_C7_witness :
    (exportToICS [⟨"", "", "", "15.03.2025", "14:00", "", "", "", ""⟩]).length =
      ([⟨"", "", "", "15.03.2025", "14:00", "", "", "", ""⟩] : List ExportMatch).countP
        (fun x => x.datum != "" && x.uhrzeit != "") ∧
    mkIcsEvent ⟨"", "", "", "15.03.2025", "14:00", "", "", "", ""⟩ ∈
      exportToICS [⟨"", "", "", "15.03.2025", "14:00", "", "", "", ""⟩] ∧
    csvCells ⟨"", "", "", "15.03.2025", "14:00", "", "", "", ""⟩ ∈
      exportToCSV [⟨"", "", "", "15.03.2025", "14:00", "", "", "", ""⟩] ∧
    csvCells ⟨"", "", "", "15.03.2025", "14:00", "", "", "", ""⟩ ∈
      exportToXLSX [⟨"", "", "", "15.03.2025", "14:00", "", "", "", ""⟩] ∧
    (exportToCSV [⟨"", "", "", "15.03.2025", "14:00", "", "", "", ""⟩]).length = 1 ∧
    (exportToXLSX [⟨"", "", "", "15.03.2025", "14:00", "", "", "", ""⟩]).length = 1 := by
  have h := spec_C7 [⟨"", "", "", "15.03.2025", "14:00", "", "", "", ""⟩]
    ⟨"", "", "", "15.03.2025", "14:00", "", "", "", ""⟩ (List.mem_singleton.mpr rfl)
  exact ⟨h.1, h.2.1 (by decide) (by decide), h.2.2.2.1, h.2.2.2.2.1,
    h.2.2.2.2.2.1, h.2.2.2.2.2.2⟩

/-- C8: the hierarchical CSV has exactly the six columns Summary,
Description, Due Date, Issue Type, Work item ID, Parent; every row is
either a month parent row (`Task`, empty Parent cell) or a match child
row (`Sub-task`) whose Parent cell holds the work item id of a parent
row of the export. -/
theorem spec_C8 (ms : List ExportMatch) :
    jiraCsvFields =
      ["Summary", "Description", "Due Date", "Issue Type", "Work item ID", "Parent"] ∧
    jiraCsvFields.length = 6 ∧
    (∀ r ∈ exportToJiraCSV ms, (jiraRowCells r).length = jiraCsvFields.length) ∧
    (∀ r ∈ exportToJiraCSV ms,
      (r.issueType = "Task" ∧ r.parent = none) ∨
      (r.issueType = "Sub-task" ∧ ∃ p ∈ exportToJiraCSV ms,
        p.issueType = "Task" ∧ r.parent = some p.workItemId)) := by
  refine ⟨rfl, rfl, fun r _ => rfl, ?_⟩
  intro r hr
  by_cases hne : ms = []
  · subst hne
    rw [show exportToJiraCSV [] = [] from rfl] at hr
    exact absurd hr (List.not_mem_nil r)
  · rw [exportToJiraCSV_eq ms hne] at hr
    rcases List.mem_append.mp hr with hr | hr
    · exact Or.inl (parentSec_shape _ 1 r hr)
    · right
      obtain ⟨i, g, m, hig, hm, hrm⟩ := childSec_shape _ 1 _ r hr
      have hi : i < ((buildGroups ms).mergeSort monthLe).length := by
        rcases List.getElem?_eq_some_iff.mp hig with ⟨hlt, -⟩
        exact hlt
      have hp : (exportToJiraCSV ms)[i]? = some (mkParentRow g.key g.label (1 + i)) := by
        rw [exportToJiraCSV_eq ms hne,
          List.getElem?_append_left (by rw [parentSec_length]; exact hi)]
        exact parentSec_getElem? _ 1 i g hig
      refine ⟨by rw [hrm]; rfl, mkParentRow g.key g.label (1 + i),
        List.getElem?_mem hp, rfl, ?_⟩
      rw [hrm]
      rfl

theorem spec_C8_witness :
    jiraCsvFields =
      ["Summary", "Description", "Due Date", "Issue Type", "Work item ID", "Parent"] ∧
    jiraCsvFields.length = 6 ∧
    (jiraRowCells (mkParentRow (keyOf ⟨"", "", "", "15.03.2025", "", "", "", "", ""⟩)
      (getMonthKeyAndLabel "15.03.2025").label 1)).length = jiraCsvFields.length ∧
    ((mkParentRow (keyOf ⟨"", "", "", "15.03.2025", "", "", "", "", ""⟩)
        (getMonthKeyAndLabel "15.03.2025").label 1).issueType = "Task" ∧
      (mkParentRow (keyOf ⟨"", "", "", "15.03.2025", "", "", "", "", ""⟩)
        (getMonthKeyAndLabel "15.03.2025").label 1).parent = none ∨
    ((mkParentRow (keyOf ⟨"", "", "", "15.03.2025", "", "", "", "", ""⟩)
        (getMonthKeyAndLabel "15.03.2025").label 1).issueType = "Sub-task" ∧
      ∃ p ∈ exportToJiraCSV [⟨"", "", "", "15.03.2025", "", "", "", "", ""⟩],
        p.issueType = "Task" ∧
        (mkParentRow (keyOf ⟨"", "", "", "15.03.2025", "", "", "", "", ""⟩)
          (getMonthKeyAndLabel "15.03.2025").label 1).parent = some p.workItemId)) := by
  have h := spec_C8 [⟨"", "", "", "15.03.2025", "", "", "", "", ""⟩]
  have hmem : mkParentRow (keyOf ⟨"", "", "", "15.03.2025", "", "", "", "", ""⟩)
      (getMonthKeyAndLabel "15.03.2025").label 1 ∈
      exportToJiraCSV [⟨"", "", "", "15.03.2025", "", "", "", "", ""⟩] := by
    rw [exportToJiraCSV_single ⟨"", "", "", "15.03.2025", "", "", "", "", ""⟩]
    exact List.mem_cons_self _ _
  exact ⟨h.1, h.2.1, h.2.2.1 _ hmem, h.2.2.2 _ hmem⟩
